import Mathlib

/-!
Verification of the YAML workflow engine (`lib/workflow_engine.py`).

The development shallowly embeds the engine's pure core:

* Python `dict[str, str]` values are association lists (`Dict`) with
  Python's in-place-replace-or-append assignment semantics (`dictInsert`,
  `dictUpdate`, mirroring `d[k] = v` and `d.update(e)`).
* `_load_workflow_with_includes` is `loadWorkflowWithIncludes`, with the
  include-processing `for` loop split into the mutually recursive
  `processIncludes` (the loop body is a direct transcription, including the
  best-effort `try/except: warn and continue` that skips a failing include).
* `_substitute_variables` (a single `re.sub` pass with pattern
  `\$\{([^}]+)\}`) is `substituteVariables`, a left-to-right scanner.
* `_execute_step` / `_execute_workflow_definition` / `execute_workflow`
  are `executeStep` / `executeWorkflowSteps` + `executeWorkflowDefinition` /
  `executeWorkflowCore`, parameterised by the nested-workflow runner and an
  oracle `runCommand` standing for `_run_command` (child-process execution).
  `executeWorkflow` ties the recursive knot with a fuel parameter; fuel is
  consumed only when recursing into a nested workflow, which is the one
  genuinely unbounded recursion in the source.  Observable actions (spawned
  processes, nested orchestrations) are recorded in an `Effect` trace.
* The dict-aliasing discipline of `_execute_workflow_definition` lines
  254-266 (the only place on the execution path that writes to a dict) is
  additionally modelled with an explicit store (`DictStore`) to express
  that the caller-supplied mapping is never mutated.

The Python field `variables` is written `«variables»` where Lean's grammar
requires quoting; it is the same identifier.
-/

namespace WorkflowEngine

/-! ### Python dicts as association lists -/

/-- A Python `dict[str, str]`: insertion-ordered key/value pairs. -/
abbrev Dict := List (String × String)

/-- Lookup in an association list (first matching key). -/
def alistGet? {α : Type} (l : List (String × α)) (k : String) : Option α :=
  (l.find? (fun p => p.1 == k)).map (fun p => p.2)

/-- Python `d[k] = v`: replace the value of an existing binding in place,
otherwise append the new binding. -/
def dictInsert : Dict → String → String → Dict
  | [], k, v => [(k, v)]
  | (k', v') :: rest, k, v =>
    if k' = k then (k', v) :: rest else (k', v') :: dictInsert rest k v

/-- Python `d.update(e)`: assign every binding of `e` into `d`, in order. -/
def dictUpdate (d e : Dict) : Dict :=
  e.foldl (fun acc p => dictInsert acc p.1 p.2) d

/-- Python `if x: d.update(x)` for an `Optional[dict]` `x`: `None` and the
empty dict are falsy and leave `d` unchanged. -/
def updateIfTruthy (d : Dict) (v : Option Dict) : Dict :=
  match v with
  | none => d
  | some e => if e.isEmpty then d else dictUpdate d e

/-- Left-biased choice on optional lookup results. -/
def orOpt {α : Type} (a b : Option α) : Option α :=
  match a with
  | some v => some v
  | none => b

/-- First hit when looking a key up in a list of dicts. -/
def lookupFirst : List Dict → String → Option String
  | [], _ => none
  | d :: rest, x => orOpt (alistGet? d x) (lookupFirst rest x)

/-! ### Data model (`WorkflowStep`, `WorkflowDefinition`, raw documents) -/

/-- One step of a workflow (the `WorkflowStep` dataclass). -/
structure WorkflowStep where
  name : String
  type : String
  command : String
  args : Option (List String) := none
  env : Option (List (String × String)) := none
  working_directory : Option String := none
  ignore_errors : Bool := false
  condition : Option String := none
deriving Repr, DecidableEq

/-- A fully include-resolved workflow (the `WorkflowDefinition` dataclass). -/
structure WorkflowDefinition where
  name : String
  description : String
  steps : List WorkflowStep
  «variables» : Option Dict := none
  includes : Option (List String) := none
deriving Repr, DecidableEq

/-- A parsed workflow YAML document before include resolution: the fields the
loader reads from `workflow_data`.  Optional fields are `none` when the key is
absent.  (YAML parsing itself is outside the model; step objects are already in
`WorkflowStep` form, as `_load_workflow_with_includes` builds them field by
field with the same defaults.) -/
structure WorkflowDoc where
  name : String
  description : Option String := none
  includes : Option (List String) := none
  «variables» : Option Dict := none
  steps : List WorkflowStep := []
deriving Repr, DecidableEq

/-- The workflows directory: file name (without `.yaml`) to parsed document. -/
abbrev WorkflowEnv := List (String × WorkflowDoc)

/-- Fatal loader errors: `FileNotFoundError` and the circular-include
`ValueError` of `_load_workflow_with_includes`. -/
inductive LoadError where
  | notFound (name : String)
  | circularInclude (name : String)
deriving Repr, DecidableEq

/-! ### The definition loader -/

/-- Number of workflow names in the environment not yet on the visited chain;
the decreasing measure of the loader's recursion. -/
def unvisitedCount (env : WorkflowEnv) (visited : List String) : Nat :=
  ((env.map Prod.fst).filter (fun k => decide (k ∉ visited))).length

theorem filter_impl_length_le {α : Type} (p q : α → Bool) (l : List α)
    (h : ∀ a, p a = true → q a = true) :
    (l.filter p).length ≤ (l.filter q).length := by
  induction l with
  | nil => simp
  | cons a l ih =>
    by_cases hp : p a = true
    · simp only [List.filter, hp, h a hp, List.length_cons]
      omega
    · have hp' : p a = false := by revert hp; cases p a <;> simp
      simp only [List.filter, hp']
      cases hq : q a <;> simp only [List.length_cons] <;> omega

theorem filter_not_mem_cons_lt (l : List String) (name : String) (visited : List String)
    (hmem : name ∈ l) (hnv : name ∉ visited) :
    (l.filter (fun k => decide (k ∉ name :: visited))).length <
      (l.filter (fun k => decide (k ∉ visited))).length := by
  induction l with
  | nil => simp at hmem
  | cons a l ih =>
    have hmono := filter_impl_length_le
      (fun k => decide (k ∉ name :: visited)) (fun k => decide (k ∉ visited)) l
      (by
        intro x hx
        simp only [decide_eq_true_eq, List.mem_cons, not_or] at hx ⊢
        exact hx.2)
    by_cases ha : a = name
    · subst ha
      have h1 : (decide (a ∉ a :: visited)) = false := by simp
      have h2 : (decide (a ∉ visited)) = true := by simpa using hnv
      simp only [List.filter, h1, h2, List.length_cons]
      omega
    · have hsame : (decide (a ∉ name :: visited)) = (decide (a ∉ visited)) := by
        by_cases hv : a ∈ visited
        · simp [hv]
        · simp [hv, ha]
      have hmem' : name ∈ l := by
        rcases List.mem_cons.mp hmem with h | h
        · exact absurd h.symm ha
        · exact h
      have ih' := ih hmem'
      simp only [List.filter, hsame]
      cases hd : (decide (a ∉ visited)) <;> simp only [List.length_cons] <;> omega

theorem unvisited_cons_lt (env : WorkflowEnv) (name : String) (visited : List String)
    (hmem : name ∈ env.map Prod.fst) (hnv : name ∉ visited) :
    unvisitedCount env (name :: visited) < unvisitedCount env visited :=
  filter_not_mem_cons_lt (env.map Prod.fst) name visited hmem hnv

theorem mem_keys_of_alistGet?_eq_some {α : Type} {l : List (String × α)} {k : String} {a : α}
    (h : alistGet? l k = some a) : k ∈ l.map Prod.fst := by
  induction l with
  | nil => simp [alistGet?] at h
  | cons p l ih =>
    simp only [alistGet?, List.find?] at h
    by_cases hk : (p.1 == k) = true
    · have : p.1 = k := by simpa using hk
      simp [this]
    · simp only [Bool.not_eq_true] at hk
      simp only [hk] at h
      simp only [List.map_cons, List.mem_cons]
      right
      exact ih h

mutual

/-- Transcription of `_load_workflow_with_includes`: fails on a name already on the visited
chain or a missing document; otherwise resolves includes (best effort),
merges variables (includes lowest, own document highest) and concatenates
steps (includes first, own steps last). -/
def loadWorkflowWithIncludes (env : WorkflowEnv) (name : String) (visited : List String) :
    Except LoadError WorkflowDefinition :=
  if hmem : name ∈ visited then
    .error (.circularInclude name)
  else
    match hfind : alistGet? env name with
    | none => .error (.notFound name)
    | some doc =>
      let acc := processIncludes env (name :: visited) (doc.includes.getD []) [] []
      let mergedVariables := updateIfTruthy acc.1 doc.«variables»
      .ok { name := doc.name
            description := doc.description.getD ""
            steps := acc.2 ++ doc.steps
            «variables» := if mergedVariables = [] then none else some mergedVariables
            includes := doc.includes }
termination_by (unvisitedCount env visited, 0)
decreasing_by
  exact Prod.Lex.left _ _ (unvisited_cons_lt env name visited
    (mem_keys_of_alistGet?_eq_some hfind) hmem)

/-- The include-processing `for` loop of `_load_workflow_with_includes`:
each include is loaded with a copy of the visited set; a load failure is
logged and skipped; variables accumulate left to right (later includes
overwrite earlier), steps are concatenated in include order. -/
def processIncludes (env : WorkflowEnv) (visited : List String)
    (incs : List String) (accVars : Dict) (accSteps : List WorkflowStep) :
    Dict × List WorkflowStep :=
  match incs with
  | [] => (accVars, accSteps)
  | inc :: rest =>
    match loadWorkflowWithIncludes env inc visited with
    | .ok w =>
      processIncludes env visited rest (updateIfTruthy accVars w.«variables») (accSteps ++ w.steps)
    | .error _ => processIncludes env visited rest accVars accSteps
termination_by (unvisitedCount env visited, incs.length + 1)
decreasing_by
  · exact Prod.Lex.right _ (by omega)
  · exact Prod.Lex.right _ (by simp only [List.length_cons]; omega)
  · exact Prod.Lex.right _ (by simp only [List.length_cons]; omega)

end

/-- Transcription of `load_workflow`: entry point with an empty visited set. -/
def loadWorkflow (env : WorkflowEnv) (name : String) : Except LoadError WorkflowDefinition :=
  loadWorkflowWithIncludes env name []

/-- Flattened steps contributed by one include (empty when its load fails and
the include is skipped). -/
def stepsOfLoad (env : WorkflowEnv) (visited : List String) (inc : String) :
    List WorkflowStep :=
  match loadWorkflowWithIncludes env inc visited with
  | .ok w => w.steps
  | .error _ => []

/-- Variable layer contributed by one include (empty when its load fails). -/
def varsOfLoad (env : WorkflowEnv) (visited : List String) (inc : String) : Dict :=
  match loadWorkflowWithIncludes env inc visited with
  | .ok w => w.«variables».getD []
  | .error _ => []

/-! ### Variable substitution and conditions

`_substitute_variables` is a single `re.sub` pass with pattern
`\$\{([^}]+)\}`: every leftmost/non-overlapping occurrence of `${NAME}`
(`NAME` nonempty, containing no closing brace) is replaced by
`variables.get(NAME, original_text)`; the replacement is emitted verbatim
and never re-scanned.  The scanner below walks the text left to right with
a 3-state mode, exactly mirroring the regex's matching behaviour. -/

/-- Scanner state: plain text / just read a dollar / inside a brace group
with the name characters accumulated in reverse. -/
inductive SubMode where
  | normal : SubMode
  | dollar : SubMode
  | brace : List Char → SubMode
deriving Repr, DecidableEq

/-- One left-to-right `re.sub` pass over the character list. -/
def substAux (vars : Dict) : List Char → SubMode → List Char
  | [], .normal => []
  | [], .dollar => ['$']
  | [], .brace acc => '$' :: '{' :: acc.reverse
  | c :: rest, .normal =>
    if c = '$' then substAux vars rest .dollar
    else c :: substAux vars rest .normal
  | c :: rest, .dollar =>
    if c = '{' then substAux vars rest (.brace [])
    else if c = '$' then '$' :: substAux vars rest .dollar
    else '$' :: c :: substAux vars rest .normal
  | c :: rest, .brace acc =>
    if c = '}' then
      if acc.isEmpty then '$' :: '{' :: '}' :: substAux vars rest .normal
      else
        (match alistGet? vars (String.mk acc.reverse) with
         | some v => v.data
         | none => '$' :: '{' :: (acc.reverse ++ ['}'])) ++ substAux vars rest .normal
    else substAux vars rest (.brace (c :: acc))

/-- Transcription of `_substitute_variables(text, variables)`. -/
def substituteVariables (text : String) (vars : Dict) : String :=
  String.mk (substAux vars text.data .normal)

/-- Python `str.lower()` (ASCII; the engine only compares against
`"true"`). -/
def pyLower (s : String) : String :=
  String.mk (s.data.map Char.toLower)

/-- Transcription of `_evaluate_condition`: substitute, then compare case-insensitively
against `"true"`. -/
def evaluateCondition (condition : String) (vars : Dict) : Bool :=
  pyLower (substituteVariables condition vars) == "true"

/-- Python `str.split()` with no separator argument: split on runs of
whitespace, ignoring leading and trailing whitespace.  The first argument is
the remaining text, the second the current token accumulated in reverse. -/
def pySplitChars : List Char → List Char → List String
  | [], acc => if acc.isEmpty then [] else [String.mk acc.reverse]
  | c :: rest, acc =>
    if c.isWhitespace then
      if acc.isEmpty then pySplitChars rest []
      else String.mk acc.reverse :: pySplitChars rest []
    else pySplitChars rest (c :: acc)

/-- Python `command.split()`. -/
def pySplit (s : String) : List String :=
  pySplitChars s.data []

/-! ### Step execution

Child processes are not modelled: `_run_command` is an oracle in the
engine context, and every spawned process / nested orchestration is
recorded in an `Effect` trace. -/

/-- Observable actions of a step. -/
inductive Effect where
  | ranProcess (cmd : List String) (env : Option (List (String × String)))
      (cwd : Option String) : Effect
  | nestedWorkflow (name : String) (vars : Dict) : Effect
deriving Repr, DecidableEq

/-- The engine's ambient context: the workflows directory, the variables
derived from `config.yaml` by `_config_to_variables` (external input,
abstracted), the `tool.py` path, and the `_run_command` outcome oracle. -/
structure EngineCtx where
  workflows : WorkflowEnv
  configVars : Dict
  toolPath : String
  runCommand : List String → Option (List (String × String)) → Option String → Bool

/-- The call `_run_command` as observed by the model: one spawned process. -/
def runCommandEffect (ctx : EngineCtx) (cmd : List String)
    (env : Option (List (String × String))) (cwd : Option String) :
    Bool × List Effect :=
  (ctx.runCommand cmd env cwd, [Effect.ranProcess cmd env cwd])

/-- A runner for nested (`workflow`-typed) steps: `_execute_nested_workflow`
abstracted so that the step executor can be written without the recursive
knot. -/
abbrev NestedRunner := String → Dict → Bool × List Effect

/-- Transcription of `_execute_step`: condition gate (Python truthiness on the raw condition
string!), variable substitution, the args-absent whitespace split, and
dispatch on the step type. -/
def executeStep (ctx : EngineCtx) (nested : NestedRunner)
    (step : WorkflowStep) (vars : Dict) : Bool × List Effect :=
  let skip : Bool :=
    match step.condition with
    | some c => c != "" && !(evaluateCondition c vars)
    | none => false
  if skip then (true, [])
  else
    let command := substituteVariables step.command vars
    let resolved : String × List String :=
      match step.args with
      | none =>
        let commandParts := pySplit command
        if commandParts.length > 1 then (commandParts.headD "", commandParts.tail)
        else (command, [])
      | some args => (command, args.map (fun a => substituteVariables a vars))
    let workingDirectory := step.working_directory.map
      (fun w => substituteVariables w vars)
    match step.type with
    | "kubectl" =>
      runCommandEffect ctx (["kubectl", resolved.1] ++ resolved.2) step.env workingDirectory
    | "tool" =>
      runCommandEffect ctx (["python", ctx.toolPath, resolved.1] ++ resolved.2)
        step.env workingDirectory
    | "workflow" => nested resolved.1 vars
    | "shell" =>
      runCommandEffect ctx ([resolved.1] ++ resolved.2) step.env workingDirectory
    | _ => (false, [])

/-- The step loop of `_execute_workflow_definition`: abort on a failed step
unless `ignore_errors` is set. -/
def executeWorkflowSteps (ctx : EngineCtx) (nested : NestedRunner) :
    List WorkflowStep → Dict → Bool × List Effect
  | [], _ => (true, [])
  | step :: rest, vars =>
    let r := executeStep ctx nested step vars
    if !r.1 && !step.ignore_errors then (false, r.2)
    else
      let rr := executeWorkflowSteps ctx nested rest vars
      (rr.1, r.2 ++ rr.2)

/-- The variable merge of `_execute_workflow_definition` lines 254-266:
config, then workflow-declared, then caller-supplied runtime vars. -/
def mergeRuntimeVars (cfg : Dict) (wfVars : Option Dict) (callerVars : Option Dict) : Dict :=
  updateIfTruthy (updateIfTruthy (dictUpdate [] cfg) wfVars) callerVars

/-- Transcription of `_execute_workflow_definition`. -/
def executeWorkflowDefinition (ctx : EngineCtx) (nested : NestedRunner)
    (wf : WorkflowDefinition) (vars : Option Dict) : Bool × List Effect :=
  executeWorkflowSteps ctx nested wf.steps
    (mergeRuntimeVars ctx.configVars wf.«variables» vars)

/-- Transcription of `execute_workflow`: any loader error is caught and reported as a plain
`False` with nothing executed. -/
def executeWorkflowCore (ctx : EngineCtx) (nested : NestedRunner)
    (name : String) (vars : Option Dict) : Bool × List Effect :=
  match loadWorkflow ctx.workflows name with
  | .error _ => (false, [])
  | .ok wf => executeWorkflowDefinition ctx nested wf vars

/-- The tied recursive knot: nested `workflow` steps re-enter
`execute_workflow` with the current variable mapping as runtime overrides.
Fuel bounds the nesting depth (the source recursion is genuinely unbounded:
executing a workflow whose step names itself recurses forever). -/
def executeWorkflow (ctx : EngineCtx) : Nat → String → Option Dict → Bool × List Effect
  | 0, _, _ => (false, [])
  | Nat.succ fuel, name, vars =>
    executeWorkflowCore ctx
      (fun n v =>
        let r := executeWorkflow ctx fuel n (some v)
        (r.1, Effect.nestedWorkflow n v :: r.2))
      name vars

/-- Transcription of `_execute_nested_workflow`: announce, then re-enter the orchestrator
with the current vars as the nested run's runtime overrides. -/
def executeNestedWorkflow (ctx : EngineCtx) (fuel : Nat) (name : String) (vars : Dict) :
    Bool × List Effect :=
  let r := executeWorkflow ctx fuel name (some vars)
  (r.1, Effect.nestedWorkflow name vars :: r.2)

/-! ### Store model of the variable merge

Python dicts are mutable heap objects; `_execute_workflow_definition`
builds `runtime_vars` as a *fresh* dict and only ever calls `.update` on
that fresh dict, reading (never writing) the caller-supplied mapping.
`DictStore` makes that aliasing explicit: dicts live in a store and are
referenced by index, and the merge allocates a new cell and writes only
to it. -/

/-- A heap of dicts referenced by index. -/
structure DictStore where
  dicts : List Dict
deriving Repr, DecidableEq

/-- Read the dict at index `i`. -/
def storeRead (st : DictStore) (i : Nat) : Dict :=
  st.dicts.getD i []

/-- Allocate a new dict, returning its index. -/
def storeAlloc (st : DictStore) (d : Dict) : DictStore × Nat :=
  (⟨st.dicts ++ [d]⟩, st.dicts.length)

/-- In-place `store[i].update(e)`. -/
def storeUpdate (st : DictStore) (i : Nat) (e : Dict) : DictStore :=
  ⟨st.dicts.set i (dictUpdate (storeRead st i) e)⟩

/-- Lines 254-266 of `_execute_workflow_definition` with the caller's
mapping passed by reference: `runtime_vars = {}` allocates, the three
`update` calls write only to the fresh cell, and the caller's dict (when
present) is only read. -/
def buildRuntimeVarsInStore (cfg : Dict) (wfVars : Option Dict)
    (st0 : DictStore) (callerIdx : Option Nat) : DictStore × Nat :=
  let alloc := storeAlloc st0 []
  let st1 := alloc.1
  let r := alloc.2
  let st2 := storeUpdate st1 r cfg
  let st3 :=
    match wfVars with
    | some v => if v.isEmpty then st2 else storeUpdate st2 r v
    | none => st2
  let st4 :=
    match callerIdx with
    | some i =>
      let v := storeRead st3 i
      if v.isEmpty then st3 else storeUpdate st3 r v
    | none => st3
  (st4, r)

/-- The store right after `runtime_vars = {}` and
`runtime_vars.update(config_vars)` (stages 1-2 of the merge). -/
def stage2 (cfg : Dict) (st : DictStore) : DictStore :=
  storeUpdate ⟨st.dicts ++ [[]]⟩ st.dicts.length cfg

/-- The store after additionally applying the workflow-variables update
(stage 3 of the merge). -/
def stage3 (cfg : Dict) (wfVars : Option Dict) (st : DictStore) : DictStore :=
  match wfVars with
  | some v =>
    if v.isEmpty then stage2 cfg st
    else storeUpdate (stage2 cfg st) st.dicts.length v
  | none => stage2 cfg st

/-! ### Concrete fixtures used by witnesses and counterexamples -/

/-- A step that runs `cmdFail` (the oracle below fails exactly that) and
tolerates the failure. -/
def stepFail : WorkflowStep :=
  { name := "s1", type := "shell", command := "cmdFail", args := some [],
    ignore_errors := true }

/-- Like `stepFail` but without error tolerance. -/
def stepFailHard : WorkflowStep :=
  { name := "s1h", type := "shell", command := "cmdFail", args := some [] }

/-- A step that runs `cmdOk`. -/
def stepOk : WorkflowStep :=
  { name := "s2", type := "shell", command := "cmdOk", args := some [] }

/-- A step whose condition is the empty string (representable as
`condition: ""` in a workflow document). -/
def stepEmptyCond : WorkflowStep :=
  { name := "s", type := "shell", command := "c", args := some [],
    condition := some "" }

/-- A step gated behind the literal condition `"false"`. -/
def stepCondFalse : WorkflowStep :=
  { name := "sc", type := "shell", command := "c", args := some [],
    condition := some "false" }

/-- A step whose command is one token padded with trailing whitespace and
whose `args` are omitted. -/
def stepTrailingSpace : WorkflowStep :=
  { name := "st", type := "shell", command := "x " }

/-- A step whose whole command comes from a variable, `args` omitted. -/
def stepCmdVar : WorkflowStep :=
  { name := "sv", type := "shell", command := "${C}" }

/-- Same command but with explicit (empty) `args`. -/
def stepCmdVarArgs : WorkflowStep :=
  { name := "sva", type := "shell", command := "${C}", args := some [] }

/-- A `workflow`-typed step whose command has two tokens and omits `args`. -/
def stepTopNested : WorkflowStep :=
  { name := "n", type := "workflow", command := "a b" }

/-- Context whose process oracle fails exactly the command `cmdFail`. -/
def ctxBasic : EngineCtx :=
  { workflows := []
    configVars := []
    toolPath := "tool.py"
    runCommand := fun cmd _ _ => cmd != ["cmdFail"] }

/-- A nested runner that is never invoked by the fixtures. -/
def nestedNone : NestedRunner := fun _ _ => (false, [])

/-- Step inside workflow `A` of the circular fixture. -/
def stepInA : WorkflowStep :=
  { name := "a", type := "shell", command := "cmdA", args := some [] }

/-- Step inside workflow `B` of the circular fixture. -/
def stepInB : WorkflowStep :=
  { name := "b", type := "shell", command := "cmdB", args := some [] }

/-- Document `A`: includes `B`. -/
def docCircA : WorkflowDoc :=
  { name := "A", includes := some ["B"], steps := [stepInA] }

/-- Document `B`: includes `A`, closing the cycle. -/
def docCircB : WorkflowDoc :=
  { name := "B", includes := some ["A"], steps := [stepInB] }

/-- Two workflows including each other: the circular-include fixture. -/
def envAB : WorkflowEnv := [("A", docCircA), ("B", docCircB)]

/-- Document `A` of the include-chain fixture: includes `B` and `C`. -/
def docChainA : WorkflowDoc :=
  { name := "A", includes := some ["B", "C"],
    «variables» := some [("X", "fromA")],
    steps := [stepInA] }

/-- Document `B` of the include-chain fixture. -/
def docChainB : WorkflowDoc :=
  { name := "B", «variables» := some [("X", "fromB"), ("Y", "fromB")],
    steps := [stepInB] }

/-- Document `C` of the include-chain fixture. -/
def docChainC : WorkflowDoc :=
  { name := "C", «variables» := some [("Y", "fromC")],
    steps := [{ name := "c", type := "shell", command := "cmdC", args := some [] }] }

/-- Three-workflow include chain fixture: `A` includes `B` and `C`. -/
def envABC : WorkflowEnv :=
  [("A", docChainA), ("B", docChainB), ("C", docChainC)]

/-- Execution fixture: `top` has a `workflow`-typed step whose command has
two tokens, and `a` is an empty workflow. -/
def envNested : WorkflowEnv :=
  [("top", { name := "top", steps := [stepTopNested] }),
   ("a", { name := "a", steps := [] })]

/-- Context over `envNested` whose oracle always succeeds. -/
def ctxNested : EngineCtx :=
  { workflows := envNested
    configVars := []
    toolPath := "tool.py"
    runCommand := fun _ _ _ => true }

/-- One-workflow environment whose single step fails. -/
def envFailing : WorkflowEnv :=
  [("failing", { name := "failing", steps := [stepFailHard] })]

/-- Context over `envFailing`, failing exactly `cmdFail`. -/
def ctxFailing : EngineCtx :=
  { workflows := envFailing
    configVars := []
    toolPath := "tool.py"
    runCommand := fun cmd _ _ => cmd != ["cmdFail"] }

/-! ### Dictionary lemmas -/

theorem alistGet?_nil {α : Type} (k : String) : alistGet? ([] : List (String × α)) k = none := rfl

theorem alistGet?_cons {α : Type} (p : String × α) (l : List (String × α)) (k : String) :
    alistGet? (p :: l) k = if p.1 = k then some p.2 else alistGet? l k := by
  by_cases h : p.1 = k
  · simp [alistGet?, List.find?, h]
  · have hb : (p.1 == k) = false := by simpa using h
    simp [alistGet?, List.find?, hb, h]

theorem alistGet?_eq_none_of_not_mem_keys {α : Type} (l : List (String × α)) (k : String)
    (h : k ∉ l.map Prod.fst) : alistGet? l k = none := by
  induction l with
  | nil => rfl
  | cons p l ih =>
    simp only [List.map_cons, List.mem_cons, not_or] at h
    rw [alistGet?_cons, if_neg (fun hh => h.1 hh.symm)]
    exact ih h.2

theorem alistGet?_dictInsert (d : Dict) (k v x : String) :
    alistGet? (dictInsert d k v) x = if x = k then some v else alistGet? d x := by
  induction d with
  | nil =>
    by_cases h : x = k
    · subst h
      simp [dictInsert, alistGet?_cons]
    · simp [dictInsert, alistGet?_cons, h, Ne.symm h]
  | cons p d ih =>
    by_cases hp : p.1 = k
    · subst hp
      by_cases h : x = p.1
      · subst h
        simp [dictInsert, alistGet?_cons]
      · simp [dictInsert, alistGet?_cons, h, Ne.symm h]
    · by_cases h : x = p.1
      · subst h
        simp [dictInsert, alistGet?_cons, hp, Ne.symm hp]
      · simp [dictInsert, alistGet?_cons, hp, h, Ne.symm h, ih]

theorem dictUpdate_nil (d : Dict) : dictUpdate d [] = d := rfl

theorem dictUpdate_cons (d : Dict) (p : String × String) (e : Dict) :
    dictUpdate d (p :: e) = dictUpdate (dictInsert d p.1 p.2) e := rfl

theorem orOpt_none_left {α : Type} (b : Option α) : orOpt none b = b := rfl

theorem orOpt_some_left {α : Type} (v : α) (b : Option α) : orOpt (some v) b = some v := rfl

theorem orOpt_none_right {α : Type} (a : Option α) : orOpt a none = a := by
  cases a <;> rfl

theorem orOpt_assoc {α : Type} (a b c : Option α) :
    orOpt (orOpt a b) c = orOpt a (orOpt b c) := by
  cases a <;> rfl

theorem alistGet?_dictUpdate (d e : Dict) (x : String) (he : (e.map Prod.fst).Nodup) :
    alistGet? (dictUpdate d e) x = orOpt (alistGet? e x) (alistGet? d x) := by
  induction e generalizing d with
  | nil => rfl
  | cons p e ih =>
    simp only [List.map_cons, List.nodup_cons] at he
    rw [dictUpdate_cons, ih _ he.2, alistGet?_dictInsert, alistGet?_cons]
    by_cases h : x = p.1
    · rw [if_pos h, if_pos h.symm,
          alistGet?_eq_none_of_not_mem_keys e x (by rw [h]; exact he.1)]
      rfl
    · rw [if_neg h, if_neg (fun hh => h hh.symm)]

theorem mem_keys_dictInsert (d : Dict) (k v x : String) :
    x ∈ (dictInsert d k v).map Prod.fst ↔ x ∈ d.map Prod.fst ∨ x = k := by
  induction d with
  | nil => simp [dictInsert]
  | cons p d ih =>
    by_cases hp : p.1 = k
    · simp only [dictInsert, if_pos hp, List.map_cons, List.mem_cons]
      constructor
      · rintro (h | h)
        · exact Or.inr (hp ▸ h)
        · exact Or.inl (Or.inr h)
      · rintro ((h | h) | h)
        · exact Or.inl h
        · exact Or.inr h
        · exact Or.inl (hp ▸ h)
    · simp only [dictInsert, if_neg hp, List.map_cons, List.mem_cons, ih]
      tauto

theorem keys_dictInsert_nodup (d : Dict) (k v : String)
    (h : (d.map Prod.fst).Nodup) : ((dictInsert d k v).map Prod.fst).Nodup := by
  induction d with
  | nil => simp [dictInsert]
  | cons p d ih =>
    simp only [List.map_cons, List.nodup_cons] at h
    by_cases hp : p.1 = k
    · simp only [dictInsert, if_pos hp, List.map_cons, List.nodup_cons]
      exact h
    · simp only [dictInsert, if_neg hp, List.map_cons, List.nodup_cons]
      refine ⟨?_, ih h.2⟩
      rw [mem_keys_dictInsert]
      rintro (hh | hh)
      · exact h.1 hh
      · exact hp hh

theorem keys_dictUpdate_nodup (d e : Dict) (h : (d.map Prod.fst).Nodup) :
    ((dictUpdate d e).map Prod.fst).Nodup := by
  induction e generalizing d with
  | nil => exact h
  | cons p e ih =>
    rw [dictUpdate_cons]
    exact ih _ (keys_dictInsert_nodup _ _ _ h)

theorem updateIfTruthy_eq (d : Dict) (v : Option Dict) :
    updateIfTruthy d v = dictUpdate d (v.getD []) := by
  cases v with
  | none => rfl
  | some e =>
    cases e with
    | nil => rfl
    | cons p e => rfl

theorem lookupFirst_append (ds es : List Dict) (x : String) :
    lookupFirst (ds ++ es) x = orOpt (lookupFirst ds x) (lookupFirst es x) := by
  induction ds with
  | nil => rfl
  | cons d ds ih =>
    simp only [List.cons_append, lookupFirst, List.append_eq, ih, orOpt_assoc]

/-! ### Loader equation lemmas -/

theorem load_visited (env : WorkflowEnv) (name : String) (visited : List String)
    (h : name ∈ visited) :
    loadWorkflowWithIncludes env name visited = .error (.circularInclude name) := by
  unfold loadWorkflowWithIncludes
  simp [h]

theorem load_notFound (env : WorkflowEnv) (name : String) (visited : List String)
    (h1 : name ∉ visited) (h2 : alistGet? env name = none) :
    loadWorkflowWithIncludes env name visited = .error (.notFound name) := by
  unfold loadWorkflowWithIncludes
  rw [dif_neg h1]
  split
  · rfl
  · next doc heq => rw [h2] at heq; cases heq

theorem load_found (env : WorkflowEnv) (name : String) (visited : List String)
    (doc : WorkflowDoc) (h1 : name ∉ visited) (h2 : alistGet? env name = some doc) :
    loadWorkflowWithIncludes env name visited =
      .ok { name := doc.name
            description := doc.description.getD ""
            steps := (processIncludes env (name :: visited) (doc.includes.getD []) [] []).2
                      ++ doc.steps
            «variables» :=
              if updateIfTruthy
                  (processIncludes env (name :: visited) (doc.includes.getD []) [] []).1
                  doc.«variables» = [] then none
              else some (updateIfTruthy
                  (processIncludes env (name :: visited) (doc.includes.getD []) [] []).1
                  doc.«variables»)
            includes := doc.includes } := by
  unfold loadWorkflowWithIncludes
  rw [dif_neg h1]
  split
  · next heq => rw [h2] at heq; cases heq
  · next doc' heq =>
    rw [h2] at heq
    cases heq
    rfl

theorem processIncludes_nil (env : WorkflowEnv) (visited : List String)
    (aV : Dict) (aS : List WorkflowStep) :
    processIncludes env visited [] aV aS = (aV, aS) := by
  unfold processIncludes
  rfl

theorem processIncludes_cons_ok (env : WorkflowEnv) (visited : List String)
    (inc : String) (rest : List String) (aV : Dict) (aS : List WorkflowStep)
    (w : WorkflowDefinition) (h : loadWorkflowWithIncludes env inc visited = .ok w) :
    processIncludes env visited (inc :: rest) aV aS =
      processIncludes env visited rest (updateIfTruthy aV w.«variables») (aS ++ w.steps) := by
  conv_lhs => unfold processIncludes
  rw [h]

theorem processIncludes_cons_error (env : WorkflowEnv) (visited : List String)
    (inc : String) (rest : List String) (aV : Dict) (aS : List WorkflowStep)
    (e : LoadError) (h : loadWorkflowWithIncludes env inc visited = .error e) :
    processIncludes env visited (inc :: rest) aV aS =
      processIncludes env visited rest aV aS := by
  conv_lhs => unfold processIncludes
  rw [h]

/-! ### Loader invariants and characterisations -/

theorem processIncludes_keys_nodup (env : WorkflowEnv) (visited : List String)
    (incs : List String) (aV : Dict) (aS : List WorkflowStep)
    (h : (aV.map Prod.fst).Nodup) :
    (((processIncludes env visited incs aV aS).1).map Prod.fst).Nodup := by
  induction incs generalizing aV aS with
  | nil => rw [processIncludes_nil]; exact h
  | cons inc rest ih =>
    cases hl : loadWorkflowWithIncludes env inc visited with
    | ok w =>
      rw [processIncludes_cons_ok env visited inc rest aV aS w hl]
      exact ih _ _ (by rw [updateIfTruthy_eq]; exact keys_dictUpdate_nodup _ _ h)
    | error e =>
      rw [processIncludes_cons_error env visited inc rest aV aS e hl]
      exact ih _ _ h

/-- Collapse the `merged_variables if merged_variables else None` idiom. -/
theorem getD_if_empty (m : Dict) :
    ((if m = [] then none else some m).getD []) = m := by
  by_cases h : m = []
  · simp [h]
  · simp [h]

theorem load_ok_vars_keys_nodup (env : WorkflowEnv) (name : String)
    (visited : List String) (w : WorkflowDefinition)
    (h : loadWorkflowWithIncludes env name visited = .ok w) :
    ((w.«variables».getD []).map Prod.fst).Nodup := by
  by_cases h1 : name ∈ visited
  · rw [load_visited env name visited h1] at h
    cases h
  · cases h2 : alistGet? env name with
    | none =>
      rw [load_notFound env name visited h1 h2] at h
      cases h
    | some doc =>
      rw [load_found env name visited doc h1 h2] at h
      cases h
      dsimp only
      rw [getD_if_empty, updateIfTruthy_eq]
      exact keys_dictUpdate_nodup _ _
        (processIncludes_keys_nodup env (name :: visited) (doc.includes.getD []) [] []
          (by simp))

theorem processIncludes_steps (env : WorkflowEnv) (visited : List String)
    (incs : List String) :
    ∀ (aV : Dict) (aS : List WorkflowStep),
      (processIncludes env visited incs aV aS).2 =
        aS ++ (incs.map (stepsOfLoad env visited)).flatten := by
  induction incs with
  | nil =>
    intro aV aS
    rw [processIncludes_nil]
    simp
  | cons inc rest ih =>
    intro aV aS
    cases hl : loadWorkflowWithIncludes env inc visited with
    | ok w =>
      rw [processIncludes_cons_ok env visited inc rest aV aS w hl, ih]
      simp [stepsOfLoad, hl, List.append_assoc]
    | error e =>
      rw [processIncludes_cons_error env visited inc rest aV aS e hl, ih]
      simp [stepsOfLoad, hl]

theorem processIncludes_vars_lookup (env : WorkflowEnv) (visited : List String)
    (incs : List String) :
    ∀ (aV : Dict) (aS : List WorkflowStep) (x : String),
      alistGet? (processIncludes env visited incs aV aS).1 x =
        orOpt (lookupFirst ((incs.map (varsOfLoad env visited)).reverse) x)
          (alistGet? aV x) := by
  induction incs with
  | nil =>
    intro aV aS x
    rw [processIncludes_nil]
    rfl
  | cons inc rest ih =>
    intro aV aS x
    cases hl : loadWorkflowWithIncludes env inc visited with
    | ok w =>
      rw [processIncludes_cons_ok env visited inc rest aV aS w hl, ih,
          updateIfTruthy_eq,
          alistGet?_dictUpdate _ _ _ (load_ok_vars_keys_nodup env inc visited w hl),
          List.map_cons, List.reverse_cons, lookupFirst_append]
      simp only [lookupFirst, varsOfLoad, hl, orOpt_none_right, orOpt_assoc]
    | error e =>
      rw [processIncludes_cons_error env visited inc rest aV aS e hl, ih,
          List.map_cons, List.reverse_cons, lookupFirst_append]
      simp only [lookupFirst, varsOfLoad, hl, alistGet?_nil, orOpt_none_right,
        orOpt_none_left, orOpt_assoc]

/-! ### Substitution lemmas -/

theorem string_data_append (s t : String) : (s ++ t).data = s.data ++ t.data := rfl

theorem substAux_cons_normal_ne (vars : Dict) (c : Char) (rest : List Char)
    (h : c ≠ '$') :
    substAux vars (c :: rest) .normal = c :: substAux vars rest .normal := by
  simp [substAux, h]

theorem substAux_cons_normal_dollar (vars : Dict) (rest : List Char) :
    substAux vars ('$' :: rest) .normal = substAux vars rest .dollar := by
  simp [substAux]

theorem substAux_cons_dollar_brace (vars : Dict) (rest : List Char) :
    substAux vars ('{' :: rest) .dollar = substAux vars rest (.brace []) := by
  simp [substAux]

theorem substAux_brace_cons_ne (vars : Dict) (c : Char) (rest acc : List Char)
    (h : c ≠ '}') :
    substAux vars (c :: rest) (.brace acc) = substAux vars rest (.brace (c :: acc)) := by
  simp [substAux, h]

theorem substAux_brace_close (vars : Dict) (rest acc : List Char) (hne : acc ≠ []) :
    substAux vars ('}' :: rest) (.brace acc) =
      (match alistGet? vars (String.mk acc.reverse) with
       | some v => v.data
       | none => '$' :: '{' :: (acc.reverse ++ ['}'])) ++ substAux vars rest .normal := by
  have hemp : acc.isEmpty = false := by
    cases acc with
    | nil => exact absurd rfl hne
    | cons a l => rfl
  simp [substAux, hemp]

theorem substAux_no_dollar (vars : Dict) (pre rest : List Char)
    (h : ∀ c ∈ pre, c ≠ '$') :
    substAux vars (pre ++ rest) .normal = pre ++ substAux vars rest .normal := by
  induction pre with
  | nil => rfl
  | cons c pre ih =>
    rw [List.cons_append, substAux_cons_normal_ne vars c _ (h c (List.mem_cons_self c pre)),
        ih (fun x hx => h x (List.mem_cons_of_mem c hx)), List.cons_append]

theorem substAux_brace_scan (vars : Dict) (nm : List Char) (rest : List Char)
    (acc : List Char) (h : '}' ∉ nm) :
    substAux vars (nm ++ '}' :: rest) (.brace acc) =
      substAux vars ('}' :: rest) (.brace (nm.reverse ++ acc)) := by
  induction nm generalizing acc with
  | nil => simp
  | cons c nm ih =>
    have hc : c ≠ '}' := by
      intro hh
      exact h (hh ▸ List.mem_cons_self c nm)
    rw [List.cons_append, substAux_brace_cons_ne vars c _ acc hc,
        ih (c :: acc) (fun hx => h (List.mem_cons_of_mem c hx)),
        show nm.reverse ++ (c :: acc) = (c :: nm).reverse ++ acc by simp]

theorem substAux_open_close (vars : Dict) (nm rest : List Char)
    (hne : nm ≠ []) (h : '}' ∉ nm) :
    substAux vars ('$' :: '{' :: (nm ++ '}' :: rest)) .normal =
      (match alistGet? vars (String.mk nm) with
       | some v => v.data
       | none => '$' :: '{' :: (nm ++ ['}'])) ++ substAux vars rest .normal := by
  rw [substAux_cons_normal_dollar, substAux_cons_dollar_brace,
      substAux_brace_scan vars nm rest [] h, List.append_nil,
      substAux_brace_close vars rest nm.reverse
        (by simpa using hne),
      List.reverse_reverse]

/-! ### Execution helper lemmas -/

theorem executeWorkflow_succ (ctx : EngineCtx) (fuel : Nat) (name : String)
    (vars : Option Dict) :
    executeWorkflow ctx (fuel + 1) name vars =
      executeWorkflowCore ctx (executeNestedWorkflow ctx fuel) name vars := rfl

theorem executeWorkflowCore_ok (ctx : EngineCtx) (nested : NestedRunner)
    (name : String) (vars : Option Dict) (wf : WorkflowDefinition)
    (h : loadWorkflow ctx.workflows name = .ok wf) :
    executeWorkflowCore ctx nested name vars =
      executeWorkflowDefinition ctx nested wf vars := by
  unfold executeWorkflowCore
  rw [h]

theorem executeWorkflowCore_error (ctx : EngineCtx) (nested : NestedRunner)
    (name : String) (vars : Option Dict) (e : LoadError)
    (h : loadWorkflow ctx.workflows name = .error e) :
    executeWorkflowCore ctx nested name vars = (false, []) := by
  unfold executeWorkflowCore
  rw [h]

/-! ### Store lemmas -/

theorem getD_set_ne (l : List Dict) (i j : Nat) (d : Dict) (h : i ≠ j) :
    (l.set i d).getD j [] = l.getD j [] := by
  induction l generalizing i j with
  | nil => simp
  | cons a l ih =>
    cases i with
    | zero =>
      cases j with
      | zero => exact absurd rfl h
      | succ j => simp [List.set]
    | succ i =>
      cases j with
      | zero => simp [List.set]
      | succ j =>
        simp only [List.set, List.getD_cons_succ]
        exact ih i j (by omega)

theorem getD_set_self (l : List Dict) (i : Nat) (d : Dict) (h : i < l.length) :
    (l.set i d).getD i [] = d := by
  induction l generalizing i with
  | nil => simp at h
  | cons a l ih =>
    cases i with
    | zero => simp [List.set]
    | succ i =>
      simp only [List.set, List.getD_cons_succ]
      exact ih i (by simpa using h)

theorem getD_append_left (l l' : List Dict) (i : Nat) (h : i < l.length) :
    (l ++ l').getD i [] = l.getD i [] := by
  induction l generalizing i with
  | nil => simp at h
  | cons a l ih =>
    cases i with
    | zero => simp
    | succ i =>
      simp only [List.cons_append, List.getD_cons_succ]
      exact ih i (by simpa using h)

theorem getD_append_len (l : List Dict) (d : Dict) :
    (l ++ [d]).getD l.length [] = d := by
  induction l with
  | nil => rfl
  | cons a l ih =>
    simpa using ih

theorem storeUpdate_read_ne (stX : DictStore) (r j : Nat) (e : Dict) (h : r ≠ j) :
    storeRead (storeUpdate stX r e) j = storeRead stX j := by
  unfold storeUpdate storeRead
  exact getD_set_ne _ _ _ _ h

theorem storeUpdate_read_self (stX : DictStore) (r : Nat) (e : Dict)
    (h : r < stX.dicts.length) :
    storeRead (storeUpdate stX r e) r = dictUpdate (storeRead stX r) e := by
  unfold storeUpdate storeRead
  exact getD_set_self _ _ _ h

theorem storeUpdate_length (stX : DictStore) (r : Nat) (e : Dict) :
    (storeUpdate stX r e).dicts.length = stX.dicts.length := by
  simp [storeUpdate]

theorem updateIfTruthy_some (d w : Dict) :
    updateIfTruthy d (some w) = if w.isEmpty then d else dictUpdate d w := rfl

theorem stage3_none (cfg : Dict) (st : DictStore) :
    stage3 cfg none st = stage2 cfg st := rfl

theorem stage3_some (cfg : Dict) (v : Dict) (st : DictStore) :
    stage3 cfg (some v) st =
      if v.isEmpty then stage2 cfg st
      else storeUpdate (stage2 cfg st) st.dicts.length v := rfl

/-- Unfolding `buildRuntimeVarsInStore` through the named stages. -/
theorem buildRuntimeVarsInStore_via_stages (cfg : Dict) (wfVars : Option Dict)
    (st : DictStore) (i : Nat) :
    buildRuntimeVarsInStore cfg wfVars st (some i) =
      (if (storeRead (stage3 cfg wfVars st) i).isEmpty then stage3 cfg wfVars st
       else storeUpdate (stage3 cfg wfVars st) st.dicts.length
              (storeRead (stage3 cfg wfVars st) i),
       st.dicts.length) := rfl

/-! ### Concrete load computations for the fixtures -/

theorem load_envAB_inner_circular :
    loadWorkflowWithIncludes envAB "A" ["B", "A"] = .error (.circularInclude "A") :=
  load_visited envAB "A" ["B", "A"] (by simp)

theorem load_envAB_B :
    loadWorkflowWithIncludes envAB "B" ["A"] =
      .ok { name := "B", description := "", steps := [stepInB],
            «variables» := none, includes := some ["A"] } := by
  rw [load_found envAB "B" ["A"] docCircB (by simp) (by rfl)]
  dsimp only [docCircB, Option.getD]
  rw [processIncludes_cons_error envAB ("B" :: ["A"]) "A" [] [] []
        (.circularInclude "A") load_envAB_inner_circular,
      processIncludes_nil]
  rfl

theorem load_envAB_A :
    loadWorkflow envAB "A" =
      .ok { name := "A", description := "", steps := [stepInB, stepInA],
            «variables» := none, includes := some ["B"] } := by
  rw [loadWorkflow, load_found envAB "A" [] docCircA (by simp) (by rfl)]
  dsimp only [docCircA, Option.getD]
  rw [processIncludes_cons_ok envAB ("A" :: []) "B" [] [] [] _ load_envAB_B,
      processIncludes_nil]
  rfl

theorem load_envABC_B :
    loadWorkflowWithIncludes envABC "B" ["A"] =
      .ok { name := "B", description := "", steps := [stepInB],
            «variables» := some [("X", "fromB"), ("Y", "fromB")], includes := none } := by
  rw [load_found envABC "B" ["A"] docChainB (by simp) (by rfl)]
  dsimp only [docChainB, Option.getD]
  rw [processIncludes_nil]
  rfl

theorem load_envABC_C :
    loadWorkflowWithIncludes envABC "C" ["A"] =
      .ok { name := "C", description := "",
            steps := [{ name := "c", type := "shell", command := "cmdC", args := some [] }],
            «variables» := some [("Y", "fromC")], includes := none } := by
  rw [load_found envABC "C" ["A"] docChainC (by simp) (by rfl)]
  dsimp only [docChainC, Option.getD]
  rw [processIncludes_nil]
  rfl

theorem load_envNested_a :
    loadWorkflow envNested "a" =
      .ok { name := "a", description := "", steps := [],
            «variables» := none, includes := none } := by
  rw [loadWorkflow, load_found envNested "a" [] { name := "a", steps := [] }
        (by simp) (by rfl)]
  dsimp only [Option.getD]
  rw [processIncludes_nil]
  rfl

theorem load_envNested_top :
    loadWorkflow envNested "top" =
      .ok { name := "top", description := "", steps := [stepTopNested],
            «variables» := none, includes := none } := by
  rw [loadWorkflow, load_found envNested "top" [] { name := "top", steps := [stepTopNested] }
        (by simp) (by rfl)]
  dsimp only [Option.getD]
  rw [processIncludes_nil]
  rfl

theorem load_envFailing_failing :
    loadWorkflow envFailing "failing" =
      .ok { name := "failing", description := "", steps := [stepFailHard],
            «variables» := none, includes := none } := by
  rw [loadWorkflow, load_found envFailing "failing" []
        { name := "failing", steps := [stepFailHard] } (by simp) (by rfl)]
  dsimp only [Option.getD]
  rw [processIncludes_nil]
  rfl

theorem load_envFailing_missing :
    loadWorkflow envFailing "missing" = .error (.notFound "missing") := by
  rw [loadWorkflow]
  exact load_notFound envFailing "missing" [] (by simp) (by rfl)

/-! ### Claim C1 -/

/-- C1: for a workflow document whose includes all load successfully, the
flattened step list returned by the loader is the concatenation of the
includes' (already recursively flattened) step lists in include order,
followed by the document's own steps; with no includes (`includes` absent or
empty) it is exactly the document's own steps in original order. -/
theorem loader_flattened_step_order (env : WorkflowEnv) (name : String)
    (doc : WorkflowDoc) (visited : List String)
    (hdoc : alistGet? env name = some doc) (hnv : name ∉ visited)
    (hinc : ∀ inc ∈ doc.includes.getD [],
      ∃ w, loadWorkflowWithIncludes env inc (name :: visited) = .ok w) :
    ∃ wf, loadWorkflowWithIncludes env name visited = .ok wf ∧
      wf.steps =
        ((doc.includes.getD []).map (stepsOfLoad env (name :: visited))).flatten
          ++ doc.steps := by
  refine ⟨_, load_found env name visited doc hnv hdoc, ?_⟩
  dsimp only
  rw [processIncludes_steps]
  simp

/-- Witness for C1 on the concrete chain `A includes [B, C]`. -/
theorem loader_flattened_step_order_applied :
    ∃ wf, loadWorkflowWithIncludes envABC "A" [] = .ok wf ∧
      wf.steps =
        ((docChainA.includes.getD []).map (stepsOfLoad envABC ["A"])).flatten
          ++ docChainA.steps :=
  loader_flattened_step_order envABC "A" docChainA [] (by rfl) (by simp)
    (by
      intro inc hinc
      simp only [docChainA, Option.getD, List.mem_cons, List.not_mem_nil, or_false] at hinc
      rcases hinc with rfl | rfl
      · exact ⟨_, load_envABC_B⟩
      · exact ⟨_, load_envABC_C⟩)

/-! ### Claim C2 -/

/-- C2: for every key, the mapping used to execute a workflow resolves to the
runtime-override value when present, else the workflow-declared value, else
the flattened-configuration value (highest precedence wins); and within the
workflow-declared layer produced by the loader, the including document's own
variables override the includes', and later includes override earlier ones
(lookup goes through the include layers in reverse include order). -/
theorem variable_precedence_resolution :
    (∀ (cfg wfv rtv : Dict) (x : String),
        (cfg.map Prod.fst).Nodup → (wfv.map Prod.fst).Nodup →
        (rtv.map Prod.fst).Nodup →
        alistGet? (mergeRuntimeVars cfg (some wfv) (some rtv)) x =
          orOpt (alistGet? rtv x) (orOpt (alistGet? wfv x) (alistGet? cfg x))) ∧
    (∀ (env : WorkflowEnv) (name : String) (doc : WorkflowDoc)
        (visited : List String) (x : String),
        alistGet? env name = some doc → name ∉ visited →
        ((doc.«variables».getD []).map Prod.fst).Nodup →
        ∃ wf, loadWorkflowWithIncludes env name visited = .ok wf ∧
          alistGet? (wf.«variables».getD []) x =
            orOpt (alistGet? (doc.«variables».getD []) x)
              (lookupFirst
                (((doc.includes.getD []).map (varsOfLoad env (name :: visited))).reverse)
                x)) := by
  constructor
  · intro cfg wfv rtv x hc hw hr
    unfold mergeRuntimeVars
    rw [updateIfTruthy_eq, updateIfTruthy_eq]
    dsimp only [Option.getD]
    rw [alistGet?_dictUpdate _ _ _ hr, alistGet?_dictUpdate _ _ _ hw,
        alistGet?_dictUpdate _ _ _ hc, alistGet?_nil, orOpt_none_right]
  · intro env name doc visited x hdoc hnv hnd
    refine ⟨_, load_found env name visited doc hnv hdoc, ?_⟩
    dsimp only
    rw [getD_if_empty, updateIfTruthy_eq, alistGet?_dictUpdate _ _ _ hnd,
        processIncludes_vars_lookup, alistGet?_nil, orOpt_none_right]

/-- Witness for C2 on the claim's own example: config `X=1`, workflow `X=2`,
runtime `X=3` resolve to `3`; dropping layers yields `2`, then `1`. -/
theorem variable_precedence_resolution_applied :
    alistGet? (mergeRuntimeVars [("X", "1")] (some [("X", "2")]) (some [("X", "3")])) "X"
        = some "3" ∧
    alistGet? (mergeRuntimeVars [("X", "1")] (some [("X", "2")]) (some [])) "X"
        = some "2" ∧
    alistGet? (mergeRuntimeVars [("X", "1")] (some []) (some [])) "X" = some "1" := by
  refine ⟨?_, ?_, ?_⟩
  · rw [variable_precedence_resolution.1 [("X", "1")] [("X", "2")] [("X", "3")] "X"
        (by simp) (by simp) (by simp)]
    rfl
  · rw [variable_precedence_resolution.1 [("X", "1")] [("X", "2")] [] "X"
        (by simp) (by simp) (by simp)]
    rfl
  · rw [variable_precedence_resolution.1 [("X", "1")] [] [] "X"
        (by simp) (by simp) (by simp)]
    rfl

/-! ### Claim C3 -/

/-- C3: when a step fails, the loop aborts with overall failure and runs
nothing further if `ignore_errors` is false (the trace is the failing step's
alone); with `ignore_errors` true it proceeds to the remaining steps, whose
outcome alone determines the overall result. -/
theorem ignore_errors_abort_or_continue (ctx : EngineCtx) (nested : NestedRunner)
    (vars : Dict) (s : WorkflowStep) (rest : List WorkflowStep)
    (hfail : (executeStep ctx nested s vars).1 = false) :
    (s.ignore_errors = false →
      executeWorkflowSteps ctx nested (s :: rest) vars =
        (false, (executeStep ctx nested s vars).2)) ∧
    (s.ignore_errors = true →
      executeWorkflowSteps ctx nested (s :: rest) vars =
        ((executeWorkflowSteps ctx nested rest vars).1,
          (executeStep ctx nested s vars).2
            ++ (executeWorkflowSteps ctx nested rest vars).2)) := by
  constructor
  · intro hig
    simp [executeWorkflowSteps, hfail, hig]
  · intro hig
    simp [executeWorkflowSteps, hfail, hig]

/-- Witness for C3 on the claim's own scenario: `[S1 fails ignored, S2 ok]`
succeeds with S2 executed; `[S1 fails hard, S2 ok]` aborts before S2. -/
theorem ignore_errors_abort_or_continue_applied :
    executeWorkflowSteps ctxBasic nestedNone [stepFail, stepOk] [] =
      (true, [Effect.ranProcess ["cmdFail"] none none,
              Effect.ranProcess ["cmdOk"] none none]) ∧
    executeWorkflowSteps ctxBasic nestedNone [stepFailHard, stepOk] [] =
      (false, [Effect.ranProcess ["cmdFail"] none none]) := by
  constructor
  · rw [(ignore_errors_abort_or_continue ctxBasic nestedNone [] stepFail [stepOk]
        (by rfl)).2 (by rfl)]
    rfl
  · rw [(ignore_errors_abort_or_continue ctxBasic nestedNone [] stepFailHard [stepOk]
        (by rfl)).1 (by rfl)]
    rfl

/-! ### Claim C4 -/

/-- C4 counterexample: loading workflow `A`, where `A` includes `B` and `B`
includes `A`, does NOT fail with a circular-include error; the inner circular
error is swallowed by the best-effort include skip and the top-level load
returns a definition. -/
theorem circular_include_returns_definition :
    loadWorkflow envAB "A" =
      .ok { name := "A", description := "", steps := [stepInB, stepInA],
            «variables» := none, includes := some ["B"] } :=
  load_envAB_A

/-- C4 amended: the recursive loader fails with `CircularInclude` exactly when
the requested name is already on the current recursion's ancestor chain; at
the top level, a two-workflow cycle `A -> B -> A` does not fail: the inner
circular error is caught by the include-skip policy and loading terminates,
returning a definition with `B`'s contribution inlined once. -/
theorem circular_include_ancestor_chain :
    (∀ (env : WorkflowEnv) (name : String) (visited : List String),
        name ∈ visited →
        loadWorkflowWithIncludes env name visited = .error (.circularInclude name)) ∧
    (∃ wf, loadWorkflow envAB "A" = .ok wf ∧ wf.steps = [stepInB, stepInA]) :=
  ⟨fun env name visited h => load_visited env name visited h,
   ⟨_, load_envAB_A, rfl⟩⟩

/-- Witness for C4's amended claim: the inner load of `A` with `A` on the
ancestor chain fails with the circular-include error. -/
theorem circular_include_ancestor_chain_applied :
    loadWorkflowWithIncludes envAB "A" ["B", "A"] = .error (.circularInclude "A") :=
  circular_include_ancestor_chain.1 envAB "A" ["B", "A"] (by simp)

/-! ### Claim C5 -/

/-- C5 counterexample: a definition-loading failure (missing workflow) makes
`execute_workflow` return the plain boolean `false` with no steps run — the
same value an executed-and-failed workflow returns, not a distinct error
value (`execute_workflow` catches every loader exception and returns
`False`). -/
theorem load_error_result_not_distinct :
    executeWorkflow ctxFailing 1 "missing" none = (false, []) ∧
    executeWorkflow ctxFailing 1 "failing" none =
      (false, [Effect.ranProcess ["cmdFail"] none none]) := by
  constructor
  · rw [executeWorkflow_succ]
    exact executeWorkflowCore_error ctxFailing _ "missing" none _ load_envFailing_missing
  · rw [executeWorkflow_succ,
        executeWorkflowCore_ok ctxFailing _ "failing" none _ load_envFailing_failing]
    rfl

/-- C5 amended: a definition-loading fatal error causes no steps to run and
makes `execute_workflow` print a diagnostic and return boolean `false` — the
same boolean as "workflow executed and failed"; only the loader itself
(`load_workflow`) surfaces typed `NotFound`/`CircularInclude` errors. -/
theorem load_error_yields_false_no_steps (ctx : EngineCtx) (fuel : Nat)
    (name : String) (vars : Option Dict) (e : LoadError)
    (h : loadWorkflow ctx.workflows name = .error e) :
    executeWorkflow ctx (fuel + 1) name vars = (false, []) := by
  rw [executeWorkflow_succ]
  exact executeWorkflowCore_error ctx _ name vars e h

/-- Witness for C5's amended claim at a concrete missing workflow. -/
theorem load_error_yields_false_no_steps_applied :
    executeWorkflow ctxFailing 1 "missing" none = (false, []) :=
  load_error_yields_false_no_steps ctxFailing 0 "missing" none (.notFound "missing")
    load_envFailing_missing

/-! ### Claim C6 -/

/-- C6: substitution replaces an occurrence `${NAME}` (`NAME` nonempty,
brace-free) by `vars[NAME]` when the key is present and leaves the original
`${NAME}` text untouched otherwise — never an error or an empty string — in a
single left-to-right pass: the replacement value is emitted verbatim, not
re-scanned, and scanning resumes only after the closing brace. -/
theorem substitution_single_pass (vars : Dict) (pre nm suf : String)
    (hpre : ∀ c ∈ pre.data, c ≠ '$') (hne : nm.data ≠ []) (hbr : '}' ∉ nm.data) :
    substituteVariables (pre ++ "$\x7b" ++ nm ++ "\x7d" ++ suf) vars =
      pre ++ (match alistGet? vars nm with
              | some v => v
              | none => "$\x7b" ++ nm ++ "\x7d") ++ substituteVariables suf vars := by
  have hS : (pre ++ "$\x7b" ++ nm ++ "\x7d" ++ suf).data =
      pre.data ++ ('$' :: '{' :: (nm.data ++ '}' :: suf.data)) := by
    simp [string_data_append, List.append_assoc]
  have key : substAux vars (pre ++ "$\x7b" ++ nm ++ "\x7d" ++ suf).data .normal =
      pre.data ++
        (((match alistGet? vars nm with
           | some v => v
           | none => "$\x7b" ++ nm ++ "\x7d") : String).data
          ++ substAux vars suf.data .normal) := by
    rw [hS, substAux_no_dollar vars pre.data _ hpre,
        substAux_open_close vars nm.data suf.data hne hbr]
    congr 2
    rw [show String.mk nm.data = nm from rfl]
    cases h : alistGet? vars nm with
    | some v => rfl
    | none => simp [string_data_append, List.append_assoc]
  have final : pre ++ (match alistGet? vars nm with
        | some v => v
        | none => "$\x7b" ++ nm ++ "\x7d") ++ substituteVariables suf vars =
      String.mk ((pre.data ++
        ((match alistGet? vars nm with
          | some v => v
          | none => "$\x7b" ++ nm ++ "\x7d") : String).data)
          ++ substAux vars suf.data .normal) := rfl
  rw [final]
  exact congrArg String.mk (key.trans (List.append_assoc _ _ _).symm)

/-- Witness for C6 on the claim's own example: `${UNSET}` with no binding is
returned unchanged. -/
theorem substitution_single_pass_applied :
    substituteVariables "${UNSET}" [] = "${UNSET}" := by
  have h := substitution_single_pass [] "" "UNSET" ""
    (by intro c hc; simp at hc) (by decide) (by decide)
  exact h

/-! ### Claim C7 -/

/-- C7 counterexample: a step whose condition is the empty string — which
`evaluate_condition` maps to `false` — is nevertheless executed, because the
gate in `_execute_step` first tests Python truthiness of the raw condition
string, and the empty string is falsy. -/
theorem empty_condition_step_executes :
    evaluateCondition "" [] = false ∧
    executeStep ctxBasic nestedNone stepEmptyCond [] =
      (true, [Effect.ranProcess ["c"] none none]) := by
  constructor
  · rfl
  · rfl

/-- C7 amended: a condition is true iff its substituted value equals `"true"`
case-insensitively (anything else, including the empty string and `"false"`,
is false); a step with a present NON-EMPTY condition that evaluates false is
recorded as skipped-success — it executes nothing and returns `true` — and
one whose condition evaluates true executes exactly as if unconditioned.  A
step whose condition is the empty string is executed as if it had no
condition (Python truthiness gate). -/
theorem condition_gating_semantics :
    (∀ (c : String) (vars : Dict),
        evaluateCondition c vars = true ↔
          pyLower (substituteVariables c vars) = "true") ∧
    (∀ (ctx : EngineCtx) (nested : NestedRunner) (step : WorkflowStep)
        (vars : Dict) (c : String),
        step.condition = some c → c ≠ "" → evaluateCondition c vars = false →
        executeStep ctx nested step vars = (true, [])) ∧
    (∀ (ctx : EngineCtx) (nested : NestedRunner) (step : WorkflowStep)
        (vars : Dict) (c : String),
        step.condition = some c → evaluateCondition c vars = true →
        executeStep ctx nested step vars =
          executeStep ctx nested { step with condition := none } vars) ∧
    (∀ (ctx : EngineCtx) (nested : NestedRunner) (step : WorkflowStep)
        (vars : Dict),
        step.condition = some "" →
        executeStep ctx nested step vars =
          executeStep ctx nested { step with condition := none } vars) := by
  refine ⟨?_, ?_, ?_, ?_⟩
  · intro c vars
    simp [evaluateCondition]
  · intro ctx nested step vars c hc hcne hfalse
    simp [executeStep, hc, hcne, hfalse]
  · intro ctx nested step vars c hc htrue
    simp [executeStep, hc, htrue]
  · intro ctx nested step vars hc
    simp [executeStep, hc]

/-- Witness for C7's amended claim: a step with condition `"false"` is
skipped as a success with nothing executed. -/
theorem condition_gating_semantics_applied :
    executeStep ctxBasic nestedNone stepCondFalse [] = (true, []) :=
  condition_gating_semantics.2.1 ctxBasic nestedNone stepCondFalse [] "false" rfl
    (by decide) (by rfl)

/-! ### Claim C8 -/

/-- C8 counterexample: a shell step with the single-token-plus-whitespace
command `"x "` and omitted `args` runs the program `"x "` — the unsplit
substituted command — not the first whitespace token `"x"`, because the
split result is used only when it has more than one token. -/
theorem single_token_whitespace_not_split :
    executeStep ctxBasic nestedNone stepTrailingSpace [] =
      (true, [Effect.ranProcess ["x "] none none]) ∧
    pySplit (substituteVariables "x " []) = ["x"] := by
  constructor
  · rfl
  · rfl

/-- C8 amended: with explicit `args`, each argument is substituted
independently and the substituted command is the program, never split; with
`args` omitted, the substituted command is whitespace-split and, when the
split yields more than one token, the first token becomes the program and
the rest the arguments — but when it yields one or zero tokens the whole
substituted command string (whitespace included) is the program with no
arguments. -/
theorem args_split_asymmetry :
    (∀ (ctx : EngineCtx) (nested : NestedRunner) (vars : Dict)
        (s : WorkflowStep) (args : List String),
        s.type = "shell" → s.condition = none → s.args = some args →
        executeStep ctx nested s vars =
          runCommandEffect ctx
            (substituteVariables s.command vars
              :: args.map (fun a => substituteVariables a vars))
            s.env (s.working_directory.map (fun w => substituteVariables w vars))) ∧
    (∀ (ctx : EngineCtx) (nested : NestedRunner) (vars : Dict) (s : WorkflowStep),
        s.type = "shell" → s.condition = none → s.args = none →
        1 < (pySplit (substituteVariables s.command vars)).length →
        executeStep ctx nested s vars =
          runCommandEffect ctx (pySplit (substituteVariables s.command vars))
            s.env (s.working_directory.map (fun w => substituteVariables w vars))) ∧
    (∀ (ctx : EngineCtx) (nested : NestedRunner) (vars : Dict) (s : WorkflowStep),
        s.type = "shell" → s.condition = none → s.args = none →
        (pySplit (substituteVariables s.command vars)).length ≤ 1 →
        executeStep ctx nested s vars =
          runCommandEffect ctx [substituteVariables s.command vars]
            s.env (s.working_directory.map (fun w => substituteVariables w vars))) := by
  refine ⟨?_, ?_, ?_⟩
  · intro ctx nested vars s args htype hcond hargs
    simp [executeStep, hcond, hargs, htype]
  · intro ctx nested vars s htype hcond hargs hlen
    cases hp : pySplit (substituteVariables s.command vars) with
    | nil => rw [hp] at hlen; simp at hlen
    | cons a l =>
      rw [hp] at hlen
      have hl : 0 < l.length := by
        simp only [List.length_cons] at hlen
        omega
      simp [executeStep, hcond, hargs, htype, hp, hl]
  · intro ctx nested vars s htype hcond hargs hlen
    have hnot : ¬ (pySplit (substituteVariables s.command vars)).length > 1 := by
      omega
    simp [executeStep, hcond, hargs, htype, hnot]

/-- Witness for C8's amended claim: the same substituted value `"a b"`
yields the argument list `["a", "b"]` when `args` is omitted but the single
program string `"a b"` when `args` is explicitly `[]`. -/
theorem args_split_asymmetry_applied :
    executeStep ctxBasic nestedNone stepCmdVar [("C", "a b")] =
      (true, [Effect.ranProcess ["a", "b"] none none]) ∧
    executeStep ctxBasic nestedNone stepCmdVarArgs [("C", "a b")] =
      (true, [Effect.ranProcess ["a b"] none none]) := by
  constructor
  · rw [args_split_asymmetry.2.1 ctxBasic nestedNone [("C", "a b")] stepCmdVar
        rfl rfl rfl (by decide)]
    rfl
  · rw [args_split_asymmetry.1 ctxBasic nestedNone [("C", "a b")] stepCmdVarArgs []
        rfl rfl rfl]
    rfl

/-! ### Claim C9 -/

/-- C9 counterexample: a `workflow` step with command `"a b"` and omitted
`args` re-invokes the orchestrator under the name `"a"` — the first
whitespace token — not the full resolved command string `"a b"`, because the
args-omitted whitespace split runs before the type dispatch. -/
theorem nested_name_split_first_token :
    executeWorkflow ctxNested 2 "top" none = (true, [Effect.nestedWorkflow "a" []]) ∧
    substituteVariables "a b" [] = "a b" := by
  constructor
  · have hA : executeWorkflow ctxNested 1 "a" (some []) = (true, []) := by
      rw [executeWorkflow_succ,
          executeWorkflowCore_ok ctxNested _ "a" (some []) _ load_envNested_a]
      rfl
    have hnest : executeNestedWorkflow ctxNested 1 "a" [] =
        (true, [Effect.nestedWorkflow "a" []]) := by
      unfold executeNestedWorkflow
      rw [hA]
    have hstep : executeStep ctxNested (executeNestedWorkflow ctxNested 1)
        stepTopNested [] = executeNestedWorkflow ctxNested 1 "a" [] := rfl
    rw [executeWorkflow_succ,
        executeWorkflowCore_ok ctxNested _ "top" none _ load_envNested_top]
    show executeWorkflowSteps ctxNested (executeNestedWorkflow ctxNested 1)
        [stepTopNested] [] = (true, [Effect.nestedWorkflow "a" []])
    simp only [executeWorkflowSteps, hstep.trans hnest]
    rfl
  · rfl

/-- C9 amended: the tied orchestrator at positive fuel dispatches nested
steps through `_execute_nested_workflow`; a `workflow`-typed step spawns no
process of its own and re-invokes the orchestrator with the current
variable mapping passed through unchanged as the nested run's runtime
overrides, under the name obtained from the resolved command string — the
string itself when `args` is explicit or the split yields at most one
token, its first whitespace token otherwise. -/
theorem workflow_step_reinvokes_orchestrator :
    (∀ (ctx : EngineCtx) (fuel : Nat) (name : String) (vars : Option Dict),
        executeWorkflow ctx (fuel + 1) name vars =
          executeWorkflowCore ctx (executeNestedWorkflow ctx fuel) name vars) ∧
    (∀ (ctx : EngineCtx) (fuel : Nat) (step : WorkflowStep) (vars : Dict),
        step.type = "workflow" → step.condition = none →
        executeStep ctx (executeNestedWorkflow ctx fuel) step vars =
          executeNestedWorkflow ctx fuel
            (match step.args with
             | none =>
               if 1 < (pySplit (substituteVariables step.command vars)).length
               then (pySplit (substituteVariables step.command vars)).headD ""
               else substituteVariables step.command vars
             | some _ => substituteVariables step.command vars)
            vars) := by
  constructor
  · intro ctx fuel name vars
    rfl
  · intro ctx fuel step vars htype hcond
    cases hargs : step.args with
    | none =>
      by_cases hlen : 1 < (pySplit (substituteVariables step.command vars)).length
      · simp [executeStep, hcond, hargs, htype, hlen]
      · simp [executeStep, hcond, hargs, htype, hlen]
    | some as =>
      simp [executeStep, hcond, hargs, htype]

/-- Witness for C9's amended claim on the two-token command `"a b"`. -/
theorem workflow_step_reinvokes_orchestrator_applied :
    executeStep ctxNested (executeNestedWorkflow ctxNested 1) stepTopNested [] =
      executeNestedWorkflow ctxNested 1 "a" [] := by
  have h := workflow_step_reinvokes_orchestrator.2 ctxNested 1 stepTopNested [] rfl rfl
  exact h.trans (by rfl)

/-! ### Claim C10 -/

/-- C10: building the active mapping writes only to a freshly allocated
dict: every pre-existing dict in the store — in particular the
caller-supplied runtime mapping at index `i`, which is only read — is
unchanged, and the fresh dict holds exactly the pure three-layer merge.
(The rest of step execution only reads the mapping, so this covers the
whole `execute` call, nested runs included: a nested run receives the
parent's active mapping as its caller index and again writes only to its
own fresh dict.) -/
theorem runtime_vars_caller_unchanged (cfg : Dict) (wfVars : Option Dict)
    (st : DictStore) (i : Nat) (hi : i < st.dicts.length) :
    storeRead (buildRuntimeVarsInStore cfg wfVars st (some i)).1 i = storeRead st i ∧
    (buildRuntimeVarsInStore cfg wfVars st (some i)).2 = st.dicts.length ∧
    storeRead (buildRuntimeVarsInStore cfg wfVars st (some i)).1
        (buildRuntimeVarsInStore cfg wfVars st (some i)).2 =
      mergeRuntimeVars cfg wfVars (some (storeRead st i)) := by
  have hne : st.dicts.length ≠ i := fun hh => absurd (hh ▸ hi) (lt_irrefl _)
  have e1i : storeRead (⟨st.dicts ++ [[]]⟩ : DictStore) i = storeRead st i := by
    unfold storeRead
    exact getD_append_left _ _ i hi
  have e1r : storeRead (⟨st.dicts ++ [[]]⟩ : DictStore) st.dicts.length = [] := by
    unfold storeRead
    exact getD_append_len _ _
  have e2i : storeRead (stage2 cfg st) i = storeRead st i := by
    unfold stage2
    rw [storeUpdate_read_ne _ _ _ _ hne]
    exact e1i
  have e2r : storeRead (stage2 cfg st) st.dicts.length = dictUpdate [] cfg := by
    unfold stage2
    rw [storeUpdate_read_self _ _ _ (by simp), e1r]
  have hlen2 : (stage2 cfg st).dicts.length = st.dicts.length + 1 := by
    unfold stage2
    rw [storeUpdate_length]
    simp
  have f3i : storeRead (stage3 cfg wfVars st) i = storeRead st i := by
    cases wfVars with
    | none => rw [stage3_none]; exact e2i
    | some v =>
      rw [stage3_some]
      by_cases hv : v.isEmpty
      · rw [if_pos hv]; exact e2i
      · rw [if_neg hv, storeUpdate_read_ne _ _ _ _ hne]; exact e2i
  have f3r : storeRead (stage3 cfg wfVars st) st.dicts.length =
      updateIfTruthy (dictUpdate [] cfg) wfVars := by
    cases wfVars with
    | none => rw [stage3_none]; exact e2r
    | some v =>
      rw [stage3_some, updateIfTruthy_some]
      by_cases hv : v.isEmpty
      · rw [if_pos hv, if_pos hv, e2r]
      · rw [if_neg hv, if_neg hv, storeUpdate_read_self _ _ _ (by rw [hlen2]; omega),
            e2r]
  have f3len : (stage3 cfg wfVars st).dicts.length = st.dicts.length + 1 := by
    cases wfVars with
    | none => rw [stage3_none]; exact hlen2
    | some v =>
      rw [stage3_some]
      by_cases hv : v.isEmpty
      · rw [if_pos hv]; exact hlen2
      · rw [if_neg hv, storeUpdate_length]; exact hlen2
  rw [buildRuntimeVarsInStore_via_stages]
  unfold mergeRuntimeVars
  rw [updateIfTruthy_some]
  by_cases hce : (storeRead (stage3 cfg wfVars st) i).isEmpty
  · rw [if_pos hce]
    refine ⟨f3i, rfl, ?_⟩
    rw [f3i] at hce
    rw [if_pos hce]
    exact f3r
  · rw [if_neg hce]
    refine ⟨?_, rfl, ?_⟩
    · rw [storeUpdate_read_ne _ _ _ _ hne]
      exact f3i
    · rw [f3i] at hce
      rw [if_neg hce, storeUpdate_read_self _ _ _ (by rw [f3len]; omega), f3r, f3i]

/-- Witness for C10 at a one-dict store: the caller's mapping is untouched
and the fresh dict is the pure merge. -/
theorem runtime_vars_caller_unchanged_applied :
    storeRead (buildRuntimeVarsInStore [("X", "1")] (some [("X", "2")])
        ⟨[[("X", "3")]]⟩ (some 0)).1 0 = storeRead ⟨[[("X", "3")]]⟩ 0 ∧
    (buildRuntimeVarsInStore [("X", "1")] (some [("X", "2")])
        ⟨[[("X", "3")]]⟩ (some 0)).2 = 1 ∧
    storeRead (buildRuntimeVarsInStore [("X", "1")] (some [("X", "2")])
        ⟨[[("X", "3")]]⟩ (some 0)).1
      (buildRuntimeVarsInStore [("X", "1")] (some [("X", "2")])
        ⟨[[("X", "3")]]⟩ (some 0)).2 =
      mergeRuntimeVars [("X", "1")] (some [("X", "2")])
        (some (storeRead ⟨[[("X", "3")]]⟩ 0)) :=
  runtime_vars_caller_unchanged [("X", "1")] (some [("X", "2")])
    ⟨[[("X", "3")]]⟩ 0 (by simp)

end WorkflowEngine
